import Mathlib

/-!
Verification of the condition extraction and aggregation engine of
chia-blockchain (`chia/util/condition_tools.py`, `chia/types/name_puzzle_condition.py`).

Python values are shallowly embedded:
* a CLVM output node (result of `Program.as_python`) is a `Node`: a byte-string
  atom or a list of child nodes;
* byte strings are `List Nat` (one entry per byte);
* a Python computation that can raise an uncaught exception (IndexError,
  TypeError) or return an in-band error value is a `PyResult`;
* a Python `dict` is an insertion-ordered association list with first-match
  lookup and in-place update, matching CPython semantics for these key types.

Collaborators that live outside the given source files (the opcode enumeration,
`int_from_bytes`, `Coin`, `Announcement`, `G1Element`, the hash) are modelled
from the spec; each such definition is marked `Modelled from the spec`.
-/

namespace Chia

/-- Byte strings are modelled as lists of naturals, one per byte. -/
abbrev Bytes := List Nat

/-- One node of the raw CLVM output structure, as converted by `as_python`:
either a byte-string atom or a list of child nodes.  `listp()` is true exactly
on the `list` constructor. -/
inductive Node : Type where
  | atom : Bytes → Node
  | list : List Node → Node

/-- Modelled from the spec: the error taxonomy of §7 (`chia.util.errors.Err` is
not among the given source files).  `INVALID_CONDITION` is the spec's
`InvalidCondition`; `SEXP_ERROR` is the spec's `ScriptExecutionError`. -/
inductive Err : Type where
  | INVALID_CONDITION
  | SEXP_ERROR
  | INVALID_PUBLIC_KEY
deriving DecidableEq, Repr

/-- Modelled from the spec: the closed opcode enumeration with an `UNKNOWN`
catch-all (`chia.types.condition_opcodes` is not among the given source
files). -/
inductive ConditionOpcode : Type where
  | AGG_SIG
  | AGG_SIG_ME
  | CREATE_COIN
  | CREATE_ANNOUNCEMENT_WITH_ID
  | CREATE_ANNOUNCEMENT_WITH_PUZZLEHASH
  | UNKNOWN
deriving DecidableEq, Repr

/-- Modelled from the spec: the byte table of recognized opcodes.  The spec
pins 51 = CREATE_COIN and 60 = CREATE_ANNOUNCEMENT_WITH_ID (§8); the remaining
byte values are representative.  `UNKNOWN` is the catch-all for any byte value
outside this table and so has no entry of its own. -/
def opcodeTable : List (Bytes × ConditionOpcode) :=
  [([49], ConditionOpcode.AGG_SIG),
   ([50], ConditionOpcode.AGG_SIG_ME),
   ([51], ConditionOpcode.CREATE_COIN),
   ([60], ConditionOpcode.CREATE_ANNOUNCEMENT_WITH_ID),
   ([61], ConditionOpcode.CREATE_ANNOUNCEMENT_WITH_PUZZLEHASH)]

/-- The lookup `ConditionOpcode(items[0])` with the `ValueError` handler of
`parse_sexp_to_condition`: unknown byte encodings map to `UNKNOWN`. -/
def opcodeFromBytes (b : Bytes) : ConditionOpcode :=
  match opcodeTable.find? (fun e => e.1 == b) with
  | some e => e.2
  | none => ConditionOpcode.UNKNOWN

/-- `chia.types.condition_var_pair.ConditionVarPair`: an opcode paired with the
raw argument nodes. -/
structure ConditionVarPair : Type where
  opcode : ConditionOpcode
  vars : List Node

/-- Result of a Python computation: `crash` is an uncaught exception
(IndexError, TypeError), `error e` is an in-band returned error value
(the `(error, None)` convention of the source), `ok` is normal return. -/
inductive PyResult (α : Type) : Type where
  | crash : PyResult α
  | error : Err → PyResult α
  | ok : α → PyResult α
deriving DecidableEq, Repr

/-- `parse_sexp_to_condition` (condition_tools.py lines 16-34).
Mirrors the source line by line:
* `not sexp.listp()` → `INVALID_CONDITION`;
* `items[0]` not bytes → `INVALID_CONDITION`;
* opcode table lookup with `UNKNOWN` fallback;
* `len(items) == 3` → `ConditionVarPair(opcode, [items[1], items[2]])`;
* every other length → `ConditionVarPair(opcode, [items[1]])`, which raises
  an uncaught IndexError when `items[1]` does not exist (length 0 or 1). -/
def parse_sexp_to_condition (sexp : Node) : PyResult ConditionVarPair :=
  match sexp with
  | Node.atom _ => PyResult.error Err.INVALID_CONDITION
  | Node.list items =>
    match items with
    | [] => PyResult.crash
    | first :: rest =>
      match first with
      | Node.list _ => PyResult.error Err.INVALID_CONDITION
      | Node.atom b =>
        match rest with
        | [] => PyResult.crash
        | [a] => PyResult.ok ⟨opcodeFromBytes b, [a]⟩
        | [a, c] => PyResult.ok ⟨opcodeFromBytes b, [a, c]⟩
        | a :: _ :: _ :: _ => PyResult.ok ⟨opcodeFromBytes b, [a]⟩

/-! ### Python dicts as insertion-ordered association lists -/

/-- `d[k]` / `d.get(k)`: first entry whose key equals `k` (keys are kept
duplicate-free by `dictSet`, so first-match is exact CPython behaviour). -/
def dictGet {K V : Type} [DecidableEq K] : List (K × V) → K → Option V
  | [], _ => none
  | p :: rest, k => if k = p.1 then some p.2 else dictGet rest k

/-- `d.get(k, dflt)`. -/
def dictGetD {K V : Type} [DecidableEq K] (d : List (K × V)) (k : K) (dflt : V) : V :=
  (dictGet d k).getD dflt

/-- `d[k] = v`: replace in place if the key is present, else append. -/
def dictSet {K V : Type} [DecidableEq K] : List (K × V) → K → V → List (K × V)
  | [], k, v => [(k, v)]
  | p :: rest, k, v => if k = p.1 then (k, v) :: rest else p :: dictSet rest k v

/-- `list(d.keys())`, in insertion order. -/
def dictKeys {K V : Type} (d : List (K × V)) : List K :=
  d.map Prod.fst

/-- A Python `for` loop that builds a list, where the body may raise or return
an in-band error: the first non-`ok` element aborts the whole loop. -/
def pyMapM {α β : Type} (f : α → PyResult β) : List α → PyResult (List β)
  | [] => PyResult.ok []
  | x :: rest =>
    match f x with
    | PyResult.crash => PyResult.crash
    | PyResult.error e => PyResult.error e
    | PyResult.ok b =>
      match pyMapM f rest with
      | PyResult.crash => PyResult.crash
      | PyResult.error e => PyResult.error e
      | PyResult.ok bs => PyResult.ok (b :: bs)

/-! ### Condition-list parser and classifier -/

/-- `parse_sexp_to_conditions` (condition_tools.py lines 37-53).  The loop
body applies `parse_sexp_to_condition` to each element, returning
`(error, None)` on the first failure; `sexp.as_iter()` over a non-list raises
`ConsensusError`, caught and turned into `INVALID_CONDITION`.  Modelled from
the spec for the iteration itself: an atom "cannot be iterated as a list"
(§4.2), a list node yields its elements in order (`Program.as_iter` is not
among the given source files). -/
def parse_sexp_to_conditions (sexp : Node) : PyResult (List ConditionVarPair) :=
  match sexp with
  | Node.atom _ => PyResult.error Err.INVALID_CONDITION
  | Node.list items => pyMapM parse_sexp_to_condition items

/-- The per-opcode dictionary type of `conditions_by_opcode`. -/
abbrev CondDict := List (ConditionOpcode × List ConditionVarPair)

/-- The loop body of `conditions_by_opcode`:
`if cvp.opcode not in d: d[cvp.opcode] = list()` followed by
`d[cvp.opcode].append(cvp)`. -/
def classifyStep (d : CondDict) (cvp : ConditionVarPair) : CondDict :=
  dictSet d cvp.opcode (dictGetD d cvp.opcode [] ++ [cvp])

/-- `conditions_by_opcode` (condition_tools.py lines 56-68). -/
def conditions_by_opcode (conditions : List ConditionVarPair) : CondDict :=
  conditions.foldl classifyStep []

/-- Flattening a classified mapping back into a single condition list, in the
mapping's (insertion-ordered) key order. -/
def flattenDict (d : CondDict) : List ConditionVarPair :=
  (d.map Prod.snd).flatten

/-! ### Spec-modelled external collaborators -/

/-- Modelled from the spec: the opaque, deterministic, collision-resistant
hash used for announcement and coin identifiers (§6); the length prefix makes
this stand-in injective. -/
def std_hash (b : Bytes) : Bytes :=
  b.length :: b

/-- Modelled from the spec: `Coin(parent_id, puzzle_hash, amount)` of the
external coin constructor (§6). -/
structure Coin : Type where
  parent_coin_info : Bytes
  puzzle_hash : Bytes
  amount : Int

/-- Modelled from the spec: the coin's own identifier, an opaque deterministic
hash of the coin's contents (§6). -/
def Coin.name (c : Coin) : Bytes :=
  std_hash (c.parent_coin_info ++ c.puzzle_hash ++ [c.amount.natAbs])

/-- Modelled from the spec: an announcement is a scope identifier plus a
message (§3); the message slot receives `cvp.vars[0]` unchecked, so it holds a
raw node. -/
structure Announcement : Type where
  origin_info : Bytes
  message : Node

/-- Modelled from the spec: the announcement identifier is a hash over the
concatenation of scope identifier and message (§3); concatenation raises a
TypeError when the message is not a byte string. -/
def Announcement.name (a : Announcement) : PyResult Bytes :=
  match a.message with
  | Node.atom m => PyResult.ok (std_hash (a.origin_info ++ m))
  | Node.list _ => PyResult.crash

/-- Modelled from the spec: the opaque byte-deserializable BLS public key
(§6). -/
structure G1Element : Type where
  bytes : Bytes

/-- Modelled from the spec: `decode(bytes) -> PublicKey`, which "fails with
`InvalidPublicKey` on malformed input" (§6); the failure is a hard failure,
propagated, not swallowed (§4.4).  Malformedness is modelled as a wrong
encoding length — the group element has a fixed-width (48-byte compressed)
encoding; the further curve and subgroup checks are external and opaque. -/
def G1Element.from_bytes (b : Bytes) : Except Err G1Element :=
  if b.length = 48 then Except.ok ⟨b⟩
  else Except.error Err.INVALID_PUBLIC_KEY

/-- Big-endian value of a byte string. -/
def beNat (b : Bytes) : Nat :=
  b.foldl (fun acc x => acc * 256 + x) 0

/-- Modelled from the spec: `int_from_bytes` for CREATE_COIN amounts
(`chia.util.clvm` is not among the given source files): a minimal big-endian
decode whose policy, per §4.5, must "reject negative amounts as an error, not
silently clamp" — an encoding whose sign bit is set is rejected. -/
def int_from_bytes (b : Bytes) : Except Err Int :=
  match b with
  | [] => Except.ok 0
  | b0 :: _ =>
    if 128 ≤ b0 then Except.error Err.INVALID_CONDITION
    else Except.ok (beNat b : Nat)

/-! ### Projection functions -/

/-- One iteration of the AGG_SIG loop of `pkm_pairs_for_conditions_dict`
(lines 76-80): `assert cvp.vars[1] is not None` indexes `vars[1]` first
(IndexError when absent), then `G1Element.from_bytes(cvp.vars[0])` (TypeError
when not a byte string, `InvalidPublicKey` propagated on a malformed key),
then the pair `(pk, cvp.vars[1])` with the message verbatim. -/
def pkmEntryAggSig (cvp : ConditionVarPair) : PyResult (G1Element × Node) :=
  match cvp.vars.get? 1 with
  | none => PyResult.crash
  | some m =>
    match cvp.vars.get? 0 with
    | some (Node.atom pk) =>
      match G1Element.from_bytes pk with
      | Except.error e => PyResult.error e
      | Except.ok g => PyResult.ok (g, m)
    | some (Node.list _) => PyResult.crash
    | none => PyResult.crash

/-- One iteration of the AGG_SIG_ME loop (line 83):
`(G1Element.from_bytes(cvp.vars[0]), cvp.vars[1] + coin_name)`; a malformed
key fails with `InvalidPublicKey`, and byte concatenation raises a TypeError
unless `vars[1]` is a byte string. -/
def pkmEntryAggSigMe (coin_name : Bytes) (cvp : ConditionVarPair) :
    PyResult (G1Element × Node) :=
  match cvp.vars.get? 0 with
  | some (Node.atom pk) =>
    match G1Element.from_bytes pk with
    | Except.error e => PyResult.error e
    | Except.ok g =>
      match cvp.vars.get? 1 with
      | some (Node.atom m) => PyResult.ok (g, Node.atom (m ++ coin_name))
      | some (Node.list _) => PyResult.crash
      | none => PyResult.crash
  | some (Node.list _) => PyResult.crash
  | none => PyResult.crash

/-- `pkm_pairs_for_conditions_dict` (condition_tools.py lines 71-84): the
AGG_SIG loop runs first; the AGG_SIG_ME loop runs only when `coin_name` is
supplied, appending after the AGG_SIG pairs. -/
def pkm_pairs_for_conditions_dict (conditions_dict : CondDict)
    (coin_name : Option Bytes) : PyResult (List (G1Element × Node)) :=
  match pyMapM pkmEntryAggSig (dictGetD conditions_dict ConditionOpcode.AGG_SIG []) with
  | PyResult.crash => PyResult.crash
  | PyResult.error e => PyResult.error e
  | PyResult.ok l1 =>
    match coin_name with
    | none => PyResult.ok l1
    | some cn =>
      match pyMapM (pkmEntryAggSigMe cn)
          (dictGetD conditions_dict ConditionOpcode.AGG_SIG_ME []) with
      | PyResult.crash => PyResult.crash
      | PyResult.error e => PyResult.error e
      | PyResult.ok l2 => PyResult.ok (l1 ++ l2)

/-- One iteration of the CREATE_COIN loop of
`created_outputs_for_conditions_dict` (lines 99-107):
`puzzle_hash, amount_bin = cvp.vars[0], cvp.vars[1]` (IndexError when
either is absent), `amount = int_from_bytes(amount_bin)` (TypeError on a
non-byte-string, rejection of a negative encoding per the spec-modelled
decoder), then `Coin(input_coin_name, puzzle_hash, amount)` (the puzzle hash
slot is a fixed-width byte string per the spec's coin constructor). -/
def createCoinEntry (input_coin_name : Bytes) (cvp : ConditionVarPair) :
    PyResult Coin :=
  match cvp.vars.get? 0, cvp.vars.get? 1 with
  | some ph, some amount_bin =>
    match amount_bin with
    | Node.list _ => PyResult.crash
    | Node.atom ab =>
      match int_from_bytes ab with
      | Except.error e => PyResult.error e
      | Except.ok amount =>
        match ph with
        | Node.atom phb => PyResult.ok ⟨input_coin_name, phb, amount⟩
        | Node.list _ => PyResult.crash
  | _, _ => PyResult.crash

/-- `created_outputs_for_conditions_dict` (condition_tools.py lines 94-108). -/
def created_outputs_for_conditions_dict (conditions_dict : CondDict)
    (input_coin_name : Bytes) : PyResult (List Coin) :=
  pyMapM (createCoinEntry input_coin_name)
    (dictGetD conditions_dict ConditionOpcode.CREATE_COIN [])

/-- One iteration of the announcement loops (lines 116-119 and 128-131):
`message = cvp.vars[0]` (IndexError when absent), then
`Announcement(scope_id, message)`. -/
def announcementEntry (scope_id : Bytes) (cvp : ConditionVarPair) :
    PyResult Announcement :=
  match cvp.vars.get? 0 with
  | none => PyResult.crash
  | some m => PyResult.ok ⟨scope_id, m⟩

/-- `coin_announcements_for_conditions_dict` (condition_tools.py
lines 111-120): scope identifier is the spending coin's own identifier. -/
def coin_announcements_for_conditions_dict (conditions_dict : CondDict)
    (input_coin : Coin) : PyResult (List Announcement) :=
  pyMapM (announcementEntry input_coin.name)
    (dictGetD conditions_dict ConditionOpcode.CREATE_ANNOUNCEMENT_WITH_ID [])

/-- `puzzle_announcements_for_conditions_dict` (condition_tools.py
lines 123-132): scope identifier is the spending coin's puzzle hash. -/
def puzzle_announcements_for_conditions_dict (conditions_dict : CondDict)
    (input_coin : Coin) : PyResult (List Announcement) :=
  pyMapM (announcementEntry input_coin.puzzle_hash)
    (dictGetD conditions_dict ConditionOpcode.CREATE_ANNOUNCEMENT_WITH_PUZZLEHASH [])

/-- `coin_announcement_names_for_conditions_dict` (condition_tools.py
lines 159-164): `[an.name() for an in coin_announcements_for_conditions_dict(..)]`. -/
def coin_announcement_names_for_conditions_dict (conditions_dict : CondDict)
    (input_coin : Coin) : PyResult (List Bytes) :=
  match coin_announcements_for_conditions_dict conditions_dict input_coin with
  | PyResult.crash => PyResult.crash
  | PyResult.error e => PyResult.error e
  | PyResult.ok anns => pyMapM Announcement.name anns

/-- `puzzle_announcement_names_for_conditions_dict` (condition_tools.py
lines 167-172). -/
def puzzle_announcement_names_for_conditions_dict (conditions_dict : CondDict)
    (input_coin : Coin) : PyResult (List Bytes) :=
  match puzzle_announcements_for_conditions_dict conditions_dict input_coin with
  | PyResult.crash => PyResult.crash
  | PyResult.error e => PyResult.error e
  | PyResult.ok anns => pyMapM Announcement.name anns

/-! ### Orchestrator -/

/-- `conditions_for_solution` (condition_tools.py lines 185-195).  The
interpreter call `puzzle_reveal.run_with_cost(solution)` is external (§6); its
outcome is the input: `none` models a raised `Program.EvalError`, `some
(cost, r)` a successful run.  The source's `try` catches only
`Program.EvalError`, so a crash inside the parser propagates.  The returned
triple is the source's `(error, result, cost)`; note that on a parse failure
the interpreter-reported cost is returned unchanged. -/
def conditions_for_solution (run_result : Option (Nat × Node)) :
    PyResult (Option Err × Option (List ConditionVarPair) × Nat) :=
  match run_result with
  | none => PyResult.ok (some Err.SEXP_ERROR, none, 0)
  | some (cost, r) =>
    match parse_sexp_to_conditions r with
    | PyResult.crash => PyResult.crash
    | PyResult.error e => PyResult.ok (some e, none, cost)
    | PyResult.ok results => PyResult.ok (none, some results, cost)

/-- `conditions_dict_for_solution` (condition_tools.py lines 175-182):
`if error or result is None: return error, None, uint64(0)`, else classify. -/
def conditions_dict_for_solution (run_result : Option (Nat × Node)) :
    PyResult (Option Err × Option CondDict × Nat) :=
  match conditions_for_solution run_result with
  | PyResult.crash => PyResult.crash
  | PyResult.error e => PyResult.error e
  | PyResult.ok (some e, _, _) => PyResult.ok (some e, none, 0)
  | PyResult.ok (none, none, _) => PyResult.ok (none, none, 0)
  | PyResult.ok (none, some results, cost) =>
    PyResult.ok (none, some (conditions_by_opcode results), cost)

/-! ### NPC aggregate -/

/-- `NPC` (name_puzzle_condition.py lines 10-15). -/
structure NPC : Type where
  coin_name : Bytes
  puzzle_hash : Bytes
  conditions : List (ConditionOpcode × List ConditionVarPair)

/-- `NPC.condition_dict` (name_puzzle_condition.py lines 17-22):
`for opcode, l in self.conditions: d[opcode] = l` — plain assignment, so a
later pair with the same opcode overwrites an earlier one. -/
def NPC.condition_dict (npc : NPC) : CondDict :=
  npc.conditions.foldl (fun d p => dictSet d p.1 p.2) []

/-! ### Reading helpers used only to state theorems -/

/-- Argument 0 of a condition, with a dummy default (theorem hypotheses always
ensure the argument exists where this is used). -/
def var0 (cvp : ConditionVarPair) : Node :=
  (cvp.vars.get? 0).getD (Node.atom [])

/-- Argument 1 of a condition, with a dummy default. -/
def var1 (cvp : ConditionVarPair) : Node :=
  (cvp.vars.get? 1).getD (Node.atom [])

/-- The byte string of an atom, with a dummy default. -/
def atomOf : Node → Bytes
  | Node.atom b => b
  | Node.list _ => []

/-! ### Lemmas about `pyMapM` -/

theorem pyMapM_ok_of_forall {α β : Type} (f : α → PyResult β) (g : α → β) :
    ∀ l : List α, (∀ x ∈ l, f x = PyResult.ok (g x)) →
      pyMapM f l = PyResult.ok (l.map g) := by
  intro l
  induction l with
  | nil => intro _; rfl
  | cons x rest ih =>
    intro h
    have hx := h x (by simp)
    have hrest := ih (fun y hy => h y (by simp [hy]))
    simp [pyMapM, hx, hrest]

theorem pyMapM_forall2 {α β : Type} (f : α → PyResult β) :
    ∀ {l : List α} {m : List β},
      List.Forall₂ (fun a b => f a = PyResult.ok b) l m →
      pyMapM f l = PyResult.ok m := by
  intro l m h
  induction h with
  | nil => rfl
  | cons hx _ ih => simp [pyMapM, hx, ih]

theorem pyMapM_error_first {α β : Type} (f : α → PyResult β) (pre : List α)
    (x : α) (rest : List α) (e : Err)
    (hpre : ∀ y ∈ pre, ∃ b, f y = PyResult.ok b)
    (hx : f x = PyResult.error e) :
    pyMapM f (pre ++ x :: rest) = PyResult.error e := by
  induction pre with
  | nil => simp [pyMapM, hx]
  | cons y pre ih =>
    obtain ⟨b, hb⟩ := hpre y (by simp)
    have := ih (fun z hz => hpre z (by simp [hz]))
    simp [pyMapM, hb, this]

theorem pyMapM_ne_ok {α β : Type} (f : α → PyResult β) {l : List α} {x : α}
    (hmem : x ∈ l) (hx : ∀ b, f x ≠ PyResult.ok b) :
    ∀ m, pyMapM f l ≠ PyResult.ok m := by
  induction l with
  | nil => cases hmem
  | cons y rest ih =>
    intro m
    rcases List.mem_cons.mp hmem with h | h
    · subst h
      cases hfy : f x with
      | crash => simp [pyMapM, hfy]
      | error e => simp [pyMapM, hfy]
      | ok b => exact absurd hfy (hx b)
    · cases hfy : f y with
      | crash => simp [pyMapM, hfy]
      | error e => simp [pyMapM, hfy]
      | ok b =>
        cases hrest : pyMapM f rest with
        | crash => simp [pyMapM, hfy, hrest]
        | error e => simp [pyMapM, hfy, hrest]
        | ok bs => exact absurd hrest (ih h bs)

/-! ### Lemmas about the dict operations -/

theorem dictGet_dictSet {K V : Type} [DecidableEq K] (d : List (K × V))
    (k k' : K) (v : V) :
    dictGet (dictSet d k v) k' = if k' = k then some v else dictGet d k' := by
  induction d with
  | nil => simp [dictSet, dictGet]
  | cons p rest ih =>
    obtain ⟨k0, v0⟩ := p
    by_cases h : k = k0
    · subst h
      by_cases h2 : k' = k <;> simp [dictSet, dictGet, h2]
    · by_cases h2 : k' = k0
      · subst h2
        have hne : k' ≠ k := fun he => h (Eq.symm he)
        simp [dictSet, h, dictGet, hne]
      · simp [dictSet, h, dictGet, h2, ih]

theorem dictKeys_dictSet {K V : Type} [DecidableEq K] (d : List (K × V))
    (k : K) (v : V) :
    dictKeys (dictSet d k v) =
      if k ∈ dictKeys d then dictKeys d else dictKeys d ++ [k] := by
  induction d with
  | nil => simp [dictSet, dictKeys]
  | cons p rest ih =>
    obtain ⟨k0, v0⟩ := p
    by_cases h : k = k0
    · subst h
      simp [dictSet, dictKeys]
    · simp [dictSet, h, dictKeys, List.map_cons] at ih ⊢
      rw [ih]
      by_cases h2 : k ∈ List.map Prod.fst rest <;> simp [h2, h]

theorem dictGet_eq_none_iff {K V : Type} [DecidableEq K] (d : List (K × V))
    (k : K) : dictGet d k = none ↔ k ∉ dictKeys d := by
  induction d with
  | nil => simp [dictGet, dictKeys]
  | cons p rest ih =>
    by_cases h : k = p.1 <;> simp [dictGet, dictKeys, h, ih]

theorem dictGet_of_mem_nodup {K V : Type} [DecidableEq K] {d : List (K × V)}
    (hnd : (dictKeys d).Nodup) {p : K × V} (hp : p ∈ d) :
    dictGet d p.1 = some p.2 := by
  induction d with
  | nil => cases hp
  | cons q rest ih =>
    obtain ⟨k0, v0⟩ := q
    have hcons : dictKeys ((k0, v0) :: rest) = k0 :: dictKeys rest := rfl
    rw [hcons] at hnd
    have hknotin : k0 ∉ dictKeys rest := (List.nodup_cons.mp hnd).1
    have hnd2 : (dictKeys rest).Nodup := (List.nodup_cons.mp hnd).2
    rcases List.mem_cons.mp hp with h | h
    · subst h; simp [dictGet]
    · have hne : p.1 ≠ k0 := by
        intro he
        exact hknotin (he ▸ List.mem_map.mpr ⟨p, h, rfl⟩)
      simp [dictGet, hne, ih hnd2 h]

theorem mem_of_dictGet {K V : Type} [DecidableEq K] :
    ∀ {d : List (K × V)} {k : K} {v : V}, dictGet d k = some v → (k, v) ∈ d := by
  intro d
  induction d with
  | nil => intro k v h; simp [dictGet] at h
  | cons p rest ih =>
    intro k v h
    by_cases hk : k = p.1
    · subst hk
      simp [dictGet] at h
      subst h
      simp
    · simp [dictGet, hk] at h
      exact List.mem_cons_of_mem _ (ih h)

/-! ### Characterization of the classifier -/

/-- How one `classifyStep` pass extends the (possibly absent) previous list
under a key: absent and nothing new stays absent, otherwise the new items are
appended. -/
def combine (prev : Option (List ConditionVarPair)) :
    List ConditionVarPair → Option (List ConditionVarPair) :=
  match prev with
  | some v => fun f => some (v ++ f)
  | none => fun f =>
    match f with
    | [] => none
    | c :: f => some (c :: f)

theorem combine_nil (x : Option (List ConditionVarPair)) : combine x [] = x := by
  cases x <;> simp [combine]

theorem dictGet_foldl_classify (l : List ConditionVarPair) :
    ∀ (d : CondDict) (op : ConditionOpcode),
      dictGet (l.foldl classifyStep d) op =
        combine (dictGet d op) (l.filter (fun c => c.opcode == op)) := by
  induction l with
  | nil =>
    intro d op
    simp [combine_nil]
  | cons c l ih =>
    intro d op
    rw [List.foldl_cons, ih]
    by_cases hc : c.opcode = op
    · rw [List.filter_cons_of_pos (by simp [hc])]
      have hset : dictGet (classifyStep d c) op =
          some (dictGetD d c.opcode [] ++ [c]) := by
        rw [classifyStep, dictGet_dictSet]
        simp [hc]
      rw [hset]
      cases h : dictGet d op with
      | some v =>
        have hv : dictGetD d c.opcode [] = v := by simp [dictGetD, hc, h]
        rw [hv]
        simp [combine]
      | none =>
        have hv : dictGetD d c.opcode [] = [] := by simp [dictGetD, hc, h]
        rw [hv]
        cases hf : l.filter (fun c => c.opcode == op) <;> simp [combine]
    · rw [List.filter_cons_of_neg (by simp [hc])]
      have hset : dictGet (classifyStep d c) op = dictGet d op := by
        have hne : op ≠ c.opcode := fun he => hc (Eq.symm he)
        rw [classifyStep, dictGet_dictSet]
        simp [hne]
      rw [hset]

theorem nodup_dictKeys_foldl_classify (l : List ConditionVarPair) :
    ∀ d : CondDict, (dictKeys d).Nodup →
      (dictKeys (l.foldl classifyStep d)).Nodup := by
  induction l with
  | nil => intro d h; exact h
  | cons c l ih =>
    intro d h
    rw [List.foldl_cons]
    apply ih
    rw [classifyStep, dictKeys_dictSet]
    by_cases hmem : c.opcode ∈ dictKeys d
    · simp [hmem, h]
    · simp [hmem, h, List.Nodup.append, List.nodup_append]

theorem conditions_by_opcode_eq (l : List ConditionVarPair) :
    conditions_by_opcode l = l.foldl classifyStep [] := rfl

theorem dictKeys_foldl_group (k : ConditionOpcode) :
    ∀ (v : List ConditionVarPair) (d : CondDict),
      (∀ c ∈ v, c.opcode = k) → k ∈ dictKeys d →
      dictKeys (v.foldl classifyStep d) = dictKeys d := by
  intro v
  induction v with
  | nil => intro d _ _; rfl
  | cons c v ih =>
    intro d hall hk
    rw [List.foldl_cons]
    have hc : c.opcode = k := hall c (by simp)
    have hkeys : dictKeys (classifyStep d c) = dictKeys d := by
      rw [classifyStep, dictKeys_dictSet]
      simp [hc, hk]
    calc dictKeys (v.foldl classifyStep (classifyStep d c))
        = dictKeys (classifyStep d c) :=
          ih (classifyStep d c) (fun x hx => hall x (by simp [hx]))
            (by rw [hkeys]; exact hk)
      _ = dictKeys d := hkeys

theorem dictKeys_foldl_group_new (k : ConditionOpcode) (c0 : ConditionVarPair)
    (v : List ConditionVarPair) (d : CondDict) (h0 : c0.opcode = k)
    (hall : ∀ c ∈ v, c.opcode = k) (hk : k ∉ dictKeys d) :
    dictKeys ((c0 :: v).foldl classifyStep d) = dictKeys d ++ [k] := by
  rw [List.foldl_cons]
  have hkeys : dictKeys (classifyStep d c0) = dictKeys d ++ [k] := by
    rw [classifyStep, dictKeys_dictSet]
    simp [h0, hk]
  rw [dictKeys_foldl_group k v (classifyStep d c0) hall (by rw [hkeys]; simp)]
  exact hkeys

theorem dictKeys_classify_flatten :
    ∀ (D d : CondDict),
      (∀ p ∈ D, p.2 ≠ [] ∧ ∀ c ∈ p.2, c.opcode = p.1) →
      (dictKeys D).Nodup →
      (∀ kk ∈ dictKeys D, kk ∉ dictKeys d) →
      dictKeys ((flattenDict D).foldl classifyStep d) = dictKeys d ++ dictKeys D := by
  intro D
  induction D with
  | nil => intro d _ _ _; simp [flattenDict, dictKeys]
  | cons p D ih =>
    intro d hinv hnd hdisj
    obtain ⟨k, v⟩ := p
    have hv := hinv (k, v) (by simp)
    obtain ⟨c0, v', rfl⟩ := List.exists_cons_of_ne_nil hv.1
    have hndk : k ∉ dictKeys D ∧ (dictKeys D).Nodup := by
      simpa [dictKeys, List.nodup_cons] using hnd
    have hfl : flattenDict ((k, c0 :: v') :: D) = (c0 :: v') ++ flattenDict D := rfl
    rw [hfl, List.foldl_append]
    have h1 : dictKeys ((c0 :: v').foldl classifyStep d) = dictKeys d ++ [k] :=
      dictKeys_foldl_group_new k c0 v' d (hv.2 c0 (by simp))
        (fun c hc => hv.2 c (by simp [hc]))
        (hdisj k (by simp [dictKeys]))
    have h2 := ih ((c0 :: v').foldl classifyStep d)
      (fun q hq => hinv q (by simp [hq]))
      hndk.2
      (by
        intro kk hkk
        rw [h1]
        simp only [List.mem_append, List.mem_singleton]
        rintro (hin | hin)
        · have hmem : kk ∈ dictKeys ((k, c0 :: v') :: D) :=
            List.mem_cons_of_mem _ hkk
          exact hdisj kk hmem hin
        · subst hin
          exact hndk.1 hkk)
    rw [h2, h1]
    simp [dictKeys, List.append_assoc]

theorem filter_flattenDict (op : ConditionOpcode) :
    ∀ D : CondDict,
      (∀ p ∈ D, ∀ c ∈ p.2, c.opcode = p.1) →
      (dictKeys D).Nodup →
      (flattenDict D).filter (fun c => c.opcode == op) = dictGetD D op [] := by
  intro D
  induction D with
  | nil => intro _ _; simp [flattenDict, dictGetD, dictGet]
  | cons p D ih =>
    intro hinv hnd
    obtain ⟨k, v⟩ := p
    have hvk : ∀ c ∈ v, c.opcode = k := hinv (k, v) (by simp)
    have hndk : k ∉ dictKeys D ∧ (dictKeys D).Nodup := by
      simpa [dictKeys, List.nodup_cons] using hnd
    have hflat : flattenDict ((k, v) :: D) = v ++ flattenDict D := rfl
    rw [hflat, List.filter_append]
    have hih := ih (fun q hq => hinv q (by simp [hq])) hndk.2
    by_cases hop : op = k
    · subst hop
      have h1 : v.filter (fun c => c.opcode == op) = v :=
        List.filter_eq_self.mpr (fun c hc => by simp [hvk c hc])
      have h3 : dictGet D op = none := (dictGet_eq_none_iff D op).mpr hndk.1
      rw [h1, hih]
      simp [dictGetD, dictGet, h3]
    · have h1 : v.filter (fun c => c.opcode == op) = [] := by
        apply List.filter_eq_nil_iff.mpr
        intro c hc
        simp [hvk c hc]
        exact fun he => hop (Eq.symm he)
      rw [h1, hih]
      simp [dictGetD, dictGet, hop]

theorem dict_ext {K V : Type} [DecidableEq K] :
    ∀ (d1 d2 : List (K × V)),
      dictKeys d1 = dictKeys d2 → (dictKeys d1).Nodup →
      (∀ k, dictGet d1 k = dictGet d2 k) → d1 = d2
  | [], [], _, _, _ => rfl
  | [], p :: d2, hk, _, _ => by simp [dictKeys] at hk
  | p :: d1, [], hk, _, _ => by simp [dictKeys] at hk
  | p1 :: d1, p2 :: d2, hk, hnd, hg => by
    obtain ⟨k1, v1⟩ := p1
    obtain ⟨k2, v2⟩ := p2
    simp only [dictKeys, List.map_cons, List.cons.injEq] at hk
    obtain ⟨hk12, htl⟩ := hk
    subst hk12
    have hv : v1 = v2 := by
      have h := hg k1
      simpa [dictGet] using h
    subst hv
    have hnd2 : k1 ∉ dictKeys d1 ∧ (dictKeys d1).Nodup := by
      simpa [dictKeys, List.nodup_cons] using hnd
    have hnotin2 : k1 ∉ dictKeys d2 := by
      intro hin
      exact hnd2.1 (by rw [dictKeys, htl]; exact hin)
    have hg2 : ∀ k, dictGet d1 k = dictGet d2 k := by
      intro k
      by_cases hkk : k = k1
      · subst hkk
        rw [(dictGet_eq_none_iff d1 k).mpr hnd2.1,
          (dictGet_eq_none_iff d2 k).mpr hnotin2]
      · have h := hg k
        simpa [dictGet, hkk] using h
    rw [dict_ext d1 d2 htl hnd2.2 hg2]

theorem classify_canonical (l : List ConditionVarPair) :
    (dictKeys (conditions_by_opcode l)).Nodup ∧
    ∀ p ∈ conditions_by_opcode l, p.2 ≠ [] ∧ ∀ c ∈ p.2, c.opcode = p.1 := by
  have hnd : (dictKeys (conditions_by_opcode l)).Nodup := by
    rw [conditions_by_opcode_eq]
    exact nodup_dictKeys_foldl_classify l [] (by simp [dictKeys])
  refine ⟨hnd, ?_⟩
  intro p hp
  have hget : dictGet (conditions_by_opcode l) p.1 = some p.2 :=
    dictGet_of_mem_nodup hnd hp
  have hchar := dictGet_foldl_classify l [] p.1
  rw [← conditions_by_opcode_eq, hget] at hchar
  cases hf : l.filter (fun c => c.opcode == p.1) with
  | nil =>
    rw [hf] at hchar
    simp [dictGet, combine] at hchar
  | cons c f =>
    rw [hf] at hchar
    simp only [dictGet, combine] at hchar
    have hp2 : p.2 = c :: f := by
      exact Option.some.inj hchar
    constructor
    · rw [hp2]; exact List.cons_ne_nil c f
    · intro x hx
      rw [hp2] at hx
      have hxf : x ∈ l.filter (fun c => c.opcode == p.1) := by
        rw [hf]; exact hx
      have := List.of_mem_filter hxf
      simpa using this

/-! ### Last-write-wins characterization of plain dict assignment (for NPC) -/

def optOr {α : Type} : Option α → Option α → Option α
  | some a, _ => some a
  | none, b => b

theorem dictGet_foldl_dictSet {K V : Type} [DecidableEq K]
    (l : List (K × V)) (d : List (K × V)) (k : K) :
    dictGet (l.foldl (fun d p => dictSet d p.1 p.2) d) k =
      optOr ((l.filter (fun p => p.1 == k)).map Prod.snd).getLast?
        (dictGet d k) := by
  induction l using List.reverseRecOn with
  | nil => simp [optOr]
  | append_singleton l p ih =>
    rw [List.foldl_append, List.foldl_cons, List.foldl_nil, List.filter_append,
      dictGet_dictSet]
    by_cases hp : p.1 = k
    · rw [List.filter_cons_of_pos (by simp [hp])]
      simp [hp, optOr]
    · rw [List.filter_cons_of_neg (by simp [hp])]
      have hne : k ≠ p.1 := fun he => hp (Eq.symm he)
      simp [hne, ih]

/-! ### Claim theorems -/

/-- C1 (amended): `parse_sexp_to_condition` returns a `ConditionVarPair`
exactly when the node is list-shaped with a byte-string first element and at
least 2 total elements; the opcode is the table lookup of the first element;
the arguments are the two remaining elements when the count is 3 and only the
first remaining element for every other count (elements beyond the second are
silently dropped when the count is 4 or more); non-list shape and
non-byte-string first element fail with `INVALID_CONDITION`; a 1-element list
raises an uncaught IndexError instead of failing with `INVALID_CONDITION`. -/
theorem parse_condition_cases :
    (∀ bs, parse_sexp_to_condition (Node.atom bs) =
      PyResult.error Err.INVALID_CONDITION) ∧
    (∀ ts rest, parse_sexp_to_condition (Node.list (Node.list ts :: rest)) =
      PyResult.error Err.INVALID_CONDITION) ∧
    (parse_sexp_to_condition (Node.list []) = PyResult.crash) ∧
    (∀ b, parse_sexp_to_condition (Node.list [Node.atom b]) = PyResult.crash) ∧
    (∀ b a, parse_sexp_to_condition (Node.list [Node.atom b, a]) =
      PyResult.ok ⟨opcodeFromBytes b, [a]⟩) ∧
    (∀ b a c, parse_sexp_to_condition (Node.list [Node.atom b, a, c]) =
      PyResult.ok ⟨opcodeFromBytes b, [a, c]⟩) ∧
    (∀ b a c e rest,
      parse_sexp_to_condition (Node.list (Node.atom b :: a :: c :: e :: rest)) =
        PyResult.ok ⟨opcodeFromBytes b, [a]⟩) :=
  ⟨fun _ => rfl, fun _ _ => rfl, rfl, fun _ => rfl, fun _ _ => rfl,
    fun _ _ _ => rfl, fun _ _ _ _ _ => rfl⟩

/-- C1 counterexample: a list node with 4 elements (opcode plus 3 arguments)
is not rejected with `INVALID_CONDITION` as the claim states; it parses
successfully, keeping only the first argument. -/
theorem parse_condition_arity_four_accepted :
    parse_sexp_to_condition
      (Node.list [Node.atom [51], Node.atom [1], Node.atom [2], Node.atom [3]]) ≠
      PyResult.error Err.INVALID_CONDITION ∧
    parse_sexp_to_condition
      (Node.list [Node.atom [51], Node.atom [1], Node.atom [2], Node.atom [3]]) =
      PyResult.ok ⟨ConditionOpcode.CREATE_COIN, [Node.atom [1]]⟩ := by
  have hval : parse_sexp_to_condition
      (Node.list [Node.atom [51], Node.atom [1], Node.atom [2], Node.atom [3]]) =
      PyResult.ok ⟨ConditionOpcode.CREATE_COIN, [Node.atom [1]]⟩ := rfl
  refine ⟨?_, hval⟩
  rw [hval]
  simp

/-- C6: a node whose first element is a byte string outside the opcode table
parses (when its shape is valid) to a `ConditionVarPair` with opcode
`UNKNOWN` rather than failing, and classification keeps every
`UNKNOWN`-opcode condition retrievable under the `UNKNOWN` key. -/
theorem unknown_opcode_retained (b : Bytes)
    (hb : opcodeTable.find? (fun e => e.1 == b) = none) :
    (∀ a, parse_sexp_to_condition (Node.list [Node.atom b, a]) =
      PyResult.ok ⟨ConditionOpcode.UNKNOWN, [a]⟩) ∧
    (∀ a c, parse_sexp_to_condition (Node.list [Node.atom b, a, c]) =
      PyResult.ok ⟨ConditionOpcode.UNKNOWN, [a, c]⟩) ∧
    (∀ conds, dictGetD (conditions_by_opcode conds) ConditionOpcode.UNKNOWN [] =
      conds.filter (fun c => c.opcode == ConditionOpcode.UNKNOWN)) := by
  have hop : opcodeFromBytes b = ConditionOpcode.UNKNOWN := by
    rw [opcodeFromBytes, hb]
  refine ⟨?_, ?_, ?_⟩
  · intro a; simp [parse_sexp_to_condition, hop]
  · intro a c; simp [parse_sexp_to_condition, hop]
  · intro conds
    have h := dictGet_foldl_classify conds [] ConditionOpcode.UNKNOWN
    rw [← conditions_by_opcode_eq] at h
    rw [dictGetD, h]
    cases hf : conds.filter (fun c => c.opcode == ConditionOpcode.UNKNOWN) <;>
      simp [combine, dictGet]

/-- Witness for C6: the byte string `[99]` is outside the opcode table, and a
well-shaped node carrying it parses to an `UNKNOWN` condition. -/
theorem unknown_opcode_retained_witness :
    opcodeTable.find? (fun e => e.1 == ([99] : Bytes)) = none ∧
    parse_sexp_to_condition (Node.list [Node.atom [99], Node.atom [5]]) =
      PyResult.ok ⟨ConditionOpcode.UNKNOWN, [Node.atom [5]]⟩ :=
  ⟨rfl, (unknown_opcode_retained [99] rfl).1 (Node.atom [5])⟩

/-- C7: `conditions_by_opcode` is total by construction, and the list stored
under each opcode is exactly the subsequence of the input with that opcode in
original relative order; an opcode is a key of the mapping exactly when that
subsequence is non-empty, so no condition is dropped. -/
theorem conditions_by_opcode_spec (conditions : List ConditionVarPair)
    (op : ConditionOpcode) :
    dictGetD (conditions_by_opcode conditions) op [] =
      conditions.filter (fun c => c.opcode == op) ∧
    (op ∈ dictKeys (conditions_by_opcode conditions) ↔
      conditions.filter (fun c => c.opcode == op) ≠ []) := by
  have h := dictGet_foldl_classify conditions [] op
  rw [← conditions_by_opcode_eq] at h
  constructor
  · rw [dictGetD, h]
    cases hf : conditions.filter (fun c => c.opcode == op) <;>
      simp [combine, dictGet]
  · constructor
    · intro hmem hnil
      rw [hnil] at h
      have hnone : dictGet (conditions_by_opcode conditions) op = none := by
        rw [h]; rfl
      exact ((dictGet_eq_none_iff _ op).mp hnone) hmem
    · intro hne
      by_contra hmem
      have hnone := (dictGet_eq_none_iff (conditions_by_opcode conditions) op).mpr hmem
      rw [h] at hnone
      cases hf : conditions.filter (fun c => c.opcode == op) with
      | nil => exact hne hf
      | cons c f =>
        rw [hf] at hnone
        simp [combine, dictGet] at hnone

/-- C8: classification is idempotent — flattening the classified mapping back
into a list (in the mapping's key order) and classifying again reproduces the
identical mapping: same keys in the same order and same per-key lists. -/
theorem conditions_by_opcode_idempotent (l : List ConditionVarPair) :
    conditions_by_opcode (flattenDict (conditions_by_opcode l)) =
      conditions_by_opcode l := by
  obtain ⟨hnd, hinv⟩ := classify_canonical l
  apply dict_ext
  · have h := dictKeys_classify_flatten (conditions_by_opcode l) [] hinv hnd
      (by intro kk _; simp [dictKeys, dictGet])
    rw [conditions_by_opcode_eq (flattenDict (conditions_by_opcode l)), h]
    rfl
  · rw [conditions_by_opcode_eq]
    exact nodup_dictKeys_foldl_classify _ [] (by simp [dictKeys])
  · intro op
    have h1 := dictGet_foldl_classify (flattenDict (conditions_by_opcode l)) [] op
    have h2 : (flattenDict (conditions_by_opcode l)).filter
        (fun c => c.opcode == op) = dictGetD (conditions_by_opcode l) op [] :=
      filter_flattenDict op (conditions_by_opcode l)
        (fun p hp => (hinv p hp).2) hnd
    rw [← conditions_by_opcode_eq] at h1
    rw [h1, h2]
    cases hg : dictGet (conditions_by_opcode l) op with
    | none => simp [dictGetD, hg, dictGet, combine]
    | some v =>
      have hvne : v ≠ [] := (hinv (op, v) (mem_of_dictGet hg)).1
      obtain ⟨c, v2, rfl⟩ := List.exists_cons_of_ne_nil hvne
      simp [dictGetD, hg, dictGet, combine]

/-- C10: `NPC.condition_dict` performs plain per-opcode assignment, so the
mapping holds, for each opcode, exactly the list carried by the last pair
with that opcode in the raw `conditions` list — lists carried by earlier
pairs with the same opcode are overwritten, not merged. -/
theorem condition_dict_last_wins (npc : NPC) (op : ConditionOpcode) :
    dictGet (NPC.condition_dict npc) op =
      ((npc.conditions.filter (fun p => p.1 == op)).map Prod.snd).getLast? := by
  rw [NPC.condition_dict, dictGet_foldl_dictSet]
  cases hx : ((npc.conditions.filter (fun p => p.1 == op)).map Prod.snd).getLast? <;>
    simp [optOr, dictGet]

/-- C5: the Condition-List Parser fails with `INVALID_CONDITION` when the
top-level structure is not a list; on an element list it applies the
Condition Parser in order, fails with the first element's error (surfacing no
partial list — the error constructor carries no conditions), and on success
returns the parsed conditions in source order. -/
theorem parse_conditions_spec :
    (∀ bs, parse_sexp_to_conditions (Node.atom bs) =
      PyResult.error Err.INVALID_CONDITION) ∧
    (∀ pre x rest e,
      (∀ y ∈ pre, ∃ c, parse_sexp_to_condition y = PyResult.ok c) →
      parse_sexp_to_condition x = PyResult.error e →
      parse_sexp_to_conditions (Node.list (pre ++ x :: rest)) =
        PyResult.error e) ∧
    (∀ items cs,
      List.Forall₂ (fun n c => parse_sexp_to_condition n = PyResult.ok c) items cs →
      parse_sexp_to_conditions (Node.list items) = PyResult.ok cs) := by
  refine ⟨fun _ => rfl, ?_, ?_⟩
  · intro pre x rest e hpre hx
    exact pyMapM_error_first _ pre x rest e hpre hx
  · intro items cs h
    exact pyMapM_forall2 _ h

/-- Witness for C5: a list whose second element is malformed fails with that
element's error, and a list of one well-formed condition parses in order. -/
theorem parse_conditions_spec_witness :
    parse_sexp_to_conditions (Node.list
      ([Node.list [Node.atom [51], Node.atom [7]]] ++
        Node.atom [0] :: [Node.list []])) =
      PyResult.error Err.INVALID_CONDITION ∧
    parse_sexp_to_conditions (Node.list [Node.list [Node.atom [51], Node.atom [7]]]) =
      PyResult.ok [⟨ConditionOpcode.CREATE_COIN, [Node.atom [7]]⟩] :=
  ⟨parse_conditions_spec.2.1 _ _ _ _
      (by
        intro y hy
        simp only [List.mem_singleton] at hy
        subst hy
        exact ⟨⟨ConditionOpcode.CREATE_COIN, [Node.atom [7]]⟩, rfl⟩)
      rfl,
    parse_conditions_spec.2.2 _ _ (List.Forall₂.cons rfl List.Forall₂.nil)⟩

/-- C3 counterexample: the interpreter succeeds with cost 123 but its output
(a bare atom) is rejected by the Condition-List Parser;
`conditions_for_solution` then reports the interpreter cost 123, not the
cost 0 that the claim requires on every failure. -/
theorem conditions_for_solution_cost_not_zeroed :
    conditions_for_solution (some (123, Node.atom [7])) =
      PyResult.ok (some Err.INVALID_CONDITION, none, 123) ∧
    conditions_for_solution (some (123, Node.atom [7])) ≠
      PyResult.ok (some Err.INVALID_CONDITION, none, 0) := by
  have hval : conditions_for_solution (some (123, Node.atom [7])) =
      PyResult.ok (some Err.INVALID_CONDITION, none, 123) := rfl
  refine ⟨hval, ?_⟩
  rw [hval]
  simp

/-- C3 (amended): `conditions_dict_for_solution` reports cost 0 (and no
result) on every in-band failure, and `conditions_for_solution` reports cost
0 with `SEXP_ERROR` on interpreter evaluation failure; but when the
interpreter succeeds and the Condition-List Parser rejects its output,
`conditions_for_solution` propagates the parse error with the
interpreter-reported cost unchanged, not forced to zero. -/
theorem solution_cost_on_failure :
    (∀ run_result e res cost,
      conditions_dict_for_solution run_result = PyResult.ok (some e, res, cost) →
      cost = 0 ∧ res = none) ∧
    conditions_for_solution none = PyResult.ok (some Err.SEXP_ERROR, none, 0) ∧
    (∀ cost r e, parse_sexp_to_conditions r = PyResult.error e →
      conditions_for_solution (some (cost, r)) =
        PyResult.ok (some e, none, cost)) := by
  refine ⟨?_, rfl, ?_⟩
  · intro rr e res cost h
    cases hc : conditions_for_solution rr with
    | crash => simp [conditions_dict_for_solution, hc] at h
    | error e2 => simp [conditions_dict_for_solution, hc] at h
    | ok t =>
      obtain ⟨oe, ores, c⟩ := t
      cases oe with
      | some e3 =>
        simp [conditions_dict_for_solution, hc] at h
        exact ⟨h.2.2.symm, h.2.1.symm⟩
      | none =>
        cases ores with
        | none => simp [conditions_dict_for_solution, hc] at h
        | some results => simp [conditions_dict_for_solution, hc] at h
  · intro cost r e hparse
    simp [conditions_for_solution, hparse]

/-- Witness for C3 (amended): the dict variant zeroes the cost on the
concrete failing input, and the list variant keeps the interpreter cost 55
on a parse failure. -/
theorem solution_cost_on_failure_witness :
    ((0 : Nat) = 0 ∧ (none : Option CondDict) = none) ∧
    conditions_for_solution (some (55, Node.atom [7])) =
      PyResult.ok (some Err.INVALID_CONDITION, none, 55) :=
  ⟨solution_cost_on_failure.1 (some (123, Node.atom [7]))
      Err.INVALID_CONDITION none 0 rfl,
    solution_cost_on_failure.2.2 55 (Node.atom [7]) Err.INVALID_CONDITION rfl⟩

theorem int_from_bytes_ok (ab : Bytes) (h : ab.headD 0 < 128) :
    int_from_bytes ab = Except.ok ((beNat ab : Nat) : Int) := by
  cases ab with
  | nil => rfl
  | cons b0 t =>
    simp only [List.headD_cons] at h
    simp [int_from_bytes, Nat.not_le.mpr h]

/-- C2: with a well-formed classified mapping, the created-coin projection
decodes argument 1 as a big-endian integer amount (so the encoding `[0]`
yields amount 0) and builds one `Coin` per CREATE_COIN entry, in source
order, with the spent coin's identifier as parent and argument 0 as puzzle
hash; and whenever any CREATE_COIN entry carries a negative-looking amount
encoding (sign bit set), the projection never returns a coin list — the
negative amount is rejected as an error, not wrapped to a large positive
value. -/
theorem created_outputs_spec (d : CondDict) (input_coin_name : Bytes) :
    ((∀ cvp ∈ dictGetD d ConditionOpcode.CREATE_COIN [],
        ∃ ph ab t, cvp.vars = Node.atom ph :: Node.atom ab :: t ∧
          ab.headD 0 < 128) →
      created_outputs_for_conditions_dict d input_coin_name =
        PyResult.ok ((dictGetD d ConditionOpcode.CREATE_COIN []).map
          (fun cvp => ⟨input_coin_name, atomOf (var0 cvp),
            ((beNat (atomOf (var1 cvp)) : Nat) : Int)⟩))) ∧
    ((∃ cvp ∈ dictGetD d ConditionOpcode.CREATE_COIN [],
        ∃ ab, cvp.vars.get? 1 = some (Node.atom ab) ∧ 128 ≤ ab.headD 0) →
      ∀ coins, created_outputs_for_conditions_dict d input_coin_name ≠
        PyResult.ok coins) := by
  constructor
  · intro hwf
    apply pyMapM_ok_of_forall
    intro cvp hc
    obtain ⟨ph, ab, t, hv, hneg⟩ := hwf cvp hc
    rw [createCoinEntry, hv]
    simp only [List.get?]
    rw [int_from_bytes_ok ab hneg]
    simp [var0, var1, atomOf, hv]
  · rintro ⟨cvp, hmem, ab, hab, hneg⟩
    intro coins
    apply pyMapM_ne_ok _ hmem
    intro b hok
    have hv0 : ∃ v0, cvp.vars.get? 0 = some v0 := by
      cases hvars : cvp.vars with
      | nil => rw [hvars] at hab; simp [List.get?] at hab
      | cons v0 t => exact ⟨v0, rfl⟩
    obtain ⟨v0, hv0⟩ := hv0
    have habne : ab ≠ [] := by
      intro habnil
      rw [habnil] at hneg
      simp at hneg
    obtain ⟨b0, abt, rfl⟩ := List.exists_cons_of_ne_nil habne
    simp only [List.headD_cons] at hneg
    rw [createCoinEntry, hv0, hab] at hok
    simp [int_from_bytes, hneg] at hok

def c2dict : CondDict :=
  [(ConditionOpcode.CREATE_COIN,
    [⟨ConditionOpcode.CREATE_COIN, [Node.atom [170], Node.atom [0]]⟩])]

def c2dictNeg : CondDict :=
  [(ConditionOpcode.CREATE_COIN,
    [⟨ConditionOpcode.CREATE_COIN, [Node.atom [170], Node.atom [255]]⟩])]

/-- Witness for C2: a CREATE_COIN entry with amount encoding `[0]` yields one
coin of amount 0, and an entry with the negative-looking encoding `[255]`
never yields a coin list. -/
theorem created_outputs_spec_witness :
    created_outputs_for_conditions_dict c2dict [7] =
      PyResult.ok [⟨[7], [170], 0⟩] ∧
    created_outputs_for_conditions_dict c2dictNeg [7] ≠ PyResult.ok [] := by
  constructor
  · have h := (created_outputs_spec c2dict [7]).1 (by
      intro cvp hc
      simp only [c2dict, dictGetD, dictGet, if_pos, Option.getD_some,
        List.mem_singleton] at hc
      subst hc
      exact ⟨[170], [0], [], rfl, by norm_num⟩)
    exact h.trans (by rfl)
  · exact (created_outputs_spec c2dictNeg [7]).2
      ⟨⟨ConditionOpcode.CREATE_COIN, [Node.atom [170], Node.atom [255]]⟩,
        by simp [c2dictNeg, dictGetD, dictGet],
        [255], rfl, by norm_num⟩ []

/-- C4: for a classified mapping whose AGG_SIG / AGG_SIG_ME entries carry a
decodable public key in argument 0, `pkm_pairs_for_conditions_dict` emits one
pair per AGG_SIG entry — public key decoded from argument 0 and message equal
to argument 1 verbatim — and, when a coin identifier is supplied,
additionally one pair per AGG_SIG_ME entry whose message is argument 1
concatenated with the coin identifier; with no coin identifier the AGG_SIG_ME
entries contribute nothing.  Moreover a malformed public key is a hard
failure: a mapping with an undecodable AGG_SIG key never yields a pair
list. -/
theorem pkm_pairs_spec (d : CondDict) (cn : Bytes)
    (h1 : ∀ cvp ∈ dictGetD d ConditionOpcode.AGG_SIG [],
      ∃ pk m t, cvp.vars = Node.atom pk :: m :: t ∧ pk.length = 48)
    (h2 : ∀ cvp ∈ dictGetD d ConditionOpcode.AGG_SIG_ME [],
      ∃ pk m t, cvp.vars = Node.atom pk :: Node.atom m :: t ∧ pk.length = 48) :
    pkm_pairs_for_conditions_dict d (some cn) =
      PyResult.ok ((dictGetD d ConditionOpcode.AGG_SIG []).map
          (fun cvp => (⟨atomOf (var0 cvp)⟩, var1 cvp)) ++
        (dictGetD d ConditionOpcode.AGG_SIG_ME []).map
          (fun cvp => (⟨atomOf (var0 cvp)⟩,
            Node.atom (atomOf (var1 cvp) ++ cn)))) ∧
    pkm_pairs_for_conditions_dict d none =
      PyResult.ok ((dictGetD d ConditionOpcode.AGG_SIG []).map
        (fun cvp => (⟨atomOf (var0 cvp)⟩, var1 cvp))) ∧
    (∀ (d2 : CondDict) (cname : Option Bytes),
      (∃ cvp ∈ dictGetD d2 ConditionOpcode.AGG_SIG [],
        ∃ pk m t, cvp.vars = Node.atom pk :: m :: t ∧ pk.length ≠ 48) →
      ∀ res, pkm_pairs_for_conditions_dict d2 cname ≠ PyResult.ok res) := by
  have hs : pyMapM pkmEntryAggSig (dictGetD d ConditionOpcode.AGG_SIG []) =
      PyResult.ok ((dictGetD d ConditionOpcode.AGG_SIG []).map
        (fun cvp => (⟨atomOf (var0 cvp)⟩, var1 cvp))) := by
    apply pyMapM_ok_of_forall
    intro cvp hc
    obtain ⟨pk, m, t, hv, hlen⟩ := h1 cvp hc
    rw [pkmEntryAggSig, hv]
    simp [var0, var1, atomOf, hv, List.get?, G1Element.from_bytes, hlen]
  have hm : pyMapM (pkmEntryAggSigMe cn)
      (dictGetD d ConditionOpcode.AGG_SIG_ME []) =
      PyResult.ok ((dictGetD d ConditionOpcode.AGG_SIG_ME []).map
        (fun cvp => (⟨atomOf (var0 cvp)⟩,
          Node.atom (atomOf (var1 cvp) ++ cn)))) := by
    apply pyMapM_ok_of_forall
    intro cvp hc
    obtain ⟨pk, m, t, hv, hlen⟩ := h2 cvp hc
    rw [pkmEntryAggSigMe, hv]
    simp [var0, var1, atomOf, hv, List.get?, G1Element.from_bytes, hlen]
  refine ⟨?_, ?_, ?_⟩
  · simp [pkm_pairs_for_conditions_dict, hs, hm]
  · simp [pkm_pairs_for_conditions_dict, hs]
  · rintro d2 cname ⟨cvp, hmem, pk, m, t, hv, hlen⟩ res hok
    have hentry : ∀ b, pkmEntryAggSig cvp ≠ PyResult.ok b := by
      intro b
      rw [pkmEntryAggSig, hv]
      simp [List.get?, G1Element.from_bytes, hlen]
    have hne := pyMapM_ne_ok pkmEntryAggSig hmem hentry
    cases hmm : pyMapM pkmEntryAggSig (dictGetD d2 ConditionOpcode.AGG_SIG []) with
    | crash => simp [pkm_pairs_for_conditions_dict, hmm] at hok
    | error e => simp [pkm_pairs_for_conditions_dict, hmm] at hok
    | ok l1 => exact hne l1 hmm

def c4dict : CondDict :=
  [(ConditionOpcode.AGG_SIG,
    [⟨ConditionOpcode.AGG_SIG,
      [Node.atom (List.replicate 48 1), Node.atom [2]]⟩]),
   (ConditionOpcode.AGG_SIG_ME,
    [⟨ConditionOpcode.AGG_SIG_ME,
      [Node.atom (List.replicate 48 3), Node.atom [4]]⟩])]

def c4dictBad : CondDict :=
  [(ConditionOpcode.AGG_SIG,
    [⟨ConditionOpcode.AGG_SIG, [Node.atom [1], Node.atom [2]]⟩])]

/-- Witness for C4: with coin identifier `[9]` the AGG_SIG pair keeps its
message verbatim while the AGG_SIG_ME message gains the `[9]` suffix; with no
coin identifier only the AGG_SIG pair is emitted; and a 1-byte (malformed)
AGG_SIG key never yields a pair list. -/
theorem pkm_pairs_spec_witness :
    pkm_pairs_for_conditions_dict c4dict (some [9]) =
      PyResult.ok [(⟨List.replicate 48 1⟩, Node.atom [2]),
        (⟨List.replicate 48 3⟩, Node.atom [4, 9])] ∧
    pkm_pairs_for_conditions_dict c4dict none =
      PyResult.ok [(⟨List.replicate 48 1⟩, Node.atom [2])] ∧
    pkm_pairs_for_conditions_dict c4dictBad (some [9]) ≠ PyResult.ok [] := by
  have h := pkm_pairs_spec c4dict [9]
    (by
      intro cvp hc
      simp [c4dict, dictGetD, dictGet] at hc
      subst hc
      exact ⟨List.replicate 48 1, Node.atom [2], [], rfl, by simp⟩)
    (by
      intro cvp hc
      simp [c4dict, dictGetD, dictGet] at hc
      subst hc
      exact ⟨List.replicate 48 3, [4], [], rfl, by simp⟩)
  refine ⟨h.1.trans (by rfl), h.2.1.trans (by rfl), ?_⟩
  exact h.2.2 c4dictBad (some [9])
    ⟨⟨ConditionOpcode.AGG_SIG, [Node.atom [1], Node.atom [2]]⟩,
      by simp [c4dictBad, dictGetD, dictGet],
      [1], Node.atom [2], [], rfl, by simp⟩ []

/-- C9: for a well-formed classified mapping and spending coin, the
coin-scoped projection yields one announcement per
CREATE_ANNOUNCEMENT_WITH_ID entry scoped by the coin's own identifier with
message argument 0, the puzzle-scoped projection one announcement per
CREATE_ANNOUNCEMENT_WITH_PUZZLEHASH entry scoped by the coin's puzzle hash,
and the name variants return exactly the hash identifiers of those
announcements, in the same order. -/
theorem announcements_spec (d : CondDict) (input_coin : Coin)
    (h1 : ∀ cvp ∈ dictGetD d ConditionOpcode.CREATE_ANNOUNCEMENT_WITH_ID [],
      ∃ m t, cvp.vars = Node.atom m :: t)
    (h2 : ∀ cvp ∈ dictGetD d ConditionOpcode.CREATE_ANNOUNCEMENT_WITH_PUZZLEHASH [],
      ∃ m t, cvp.vars = Node.atom m :: t) :
    coin_announcements_for_conditions_dict d input_coin =
      PyResult.ok ((dictGetD d ConditionOpcode.CREATE_ANNOUNCEMENT_WITH_ID []).map
        (fun cvp => ⟨input_coin.name, var0 cvp⟩)) ∧
    puzzle_announcements_for_conditions_dict d input_coin =
      PyResult.ok ((dictGetD d ConditionOpcode.CREATE_ANNOUNCEMENT_WITH_PUZZLEHASH []).map
        (fun cvp => ⟨input_coin.puzzle_hash, var0 cvp⟩)) ∧
    coin_announcement_names_for_conditions_dict d input_coin =
      PyResult.ok ((dictGetD d ConditionOpcode.CREATE_ANNOUNCEMENT_WITH_ID []).map
        (fun cvp => std_hash (input_coin.name ++ atomOf (var0 cvp)))) ∧
    puzzle_announcement_names_for_conditions_dict d input_coin =
      PyResult.ok ((dictGetD d ConditionOpcode.CREATE_ANNOUNCEMENT_WITH_PUZZLEHASH []).map
        (fun cvp => std_hash (input_coin.puzzle_hash ++ atomOf (var0 cvp)))) := by
  have hca : coin_announcements_for_conditions_dict d input_coin =
      PyResult.ok ((dictGetD d ConditionOpcode.CREATE_ANNOUNCEMENT_WITH_ID []).map
        (fun cvp => ⟨input_coin.name, var0 cvp⟩)) := by
    apply pyMapM_ok_of_forall
    intro cvp hc
    obtain ⟨m, t, hv⟩ := h1 cvp hc
    rw [announcementEntry, hv]
    simp [var0, hv, List.get?]
  have hpa : puzzle_announcements_for_conditions_dict d input_coin =
      PyResult.ok ((dictGetD d ConditionOpcode.CREATE_ANNOUNCEMENT_WITH_PUZZLEHASH []).map
        (fun cvp => ⟨input_coin.puzzle_hash, var0 cvp⟩)) := by
    apply pyMapM_ok_of_forall
    intro cvp hc
    obtain ⟨m, t, hv⟩ := h2 cvp hc
    rw [announcementEntry, hv]
    simp [var0, hv, List.get?]
  have hcn : pyMapM Announcement.name
      ((dictGetD d ConditionOpcode.CREATE_ANNOUNCEMENT_WITH_ID []).map
        (fun cvp => (⟨input_coin.name, var0 cvp⟩ : Announcement))) =
      PyResult.ok (((dictGetD d ConditionOpcode.CREATE_ANNOUNCEMENT_WITH_ID []).map
        (fun cvp => (⟨input_coin.name, var0 cvp⟩ : Announcement))).map
          (fun a => std_hash (a.origin_info ++ atomOf a.message))) := by
    apply pyMapM_ok_of_forall
    intro a ha
    obtain ⟨cvp, hc, rfl⟩ := List.mem_map.mp ha
    obtain ⟨m, t, hv⟩ := h1 cvp hc
    simp [Announcement.name, var0, atomOf, hv]
  have hpn : pyMapM Announcement.name
      ((dictGetD d ConditionOpcode.CREATE_ANNOUNCEMENT_WITH_PUZZLEHASH []).map
        (fun cvp => (⟨input_coin.puzzle_hash, var0 cvp⟩ : Announcement))) =
      PyResult.ok (((dictGetD d ConditionOpcode.CREATE_ANNOUNCEMENT_WITH_PUZZLEHASH []).map
        (fun cvp => (⟨input_coin.puzzle_hash, var0 cvp⟩ : Announcement))).map
          (fun a => std_hash (a.origin_info ++ atomOf a.message))) := by
    apply pyMapM_ok_of_forall
    intro a ha
    obtain ⟨cvp, hc, rfl⟩ := List.mem_map.mp ha
    obtain ⟨m, t, hv⟩ := h2 cvp hc
    simp [Announcement.name, var0, atomOf, hv]
  refine ⟨hca, hpa, ?_, ?_⟩
  · rw [coin_announcement_names_for_conditions_dict, hca]
    exact hcn.trans (by rw [List.map_map]; rfl)
  · rw [puzzle_announcement_names_for_conditions_dict, hpa]
    exact hpn.trans (by rw [List.map_map]; rfl)

def c9dict : CondDict :=
  [(ConditionOpcode.CREATE_ANNOUNCEMENT_WITH_ID,
    [⟨ConditionOpcode.CREATE_ANNOUNCEMENT_WITH_ID, [Node.atom [5]]⟩]),
   (ConditionOpcode.CREATE_ANNOUNCEMENT_WITH_PUZZLEHASH,
    [⟨ConditionOpcode.CREATE_ANNOUNCEMENT_WITH_PUZZLEHASH, [Node.atom [6]]⟩])]

def c9coin : Coin := ⟨[1], [2], 3⟩

/-- Witness for C9 at a concrete coin and one entry per announcement opcode:
the coin-scoped announcement uses the coin's identifier, the puzzle-scoped
one its puzzle hash, and the name variants return their hashes. -/
theorem announcements_spec_witness :
    coin_announcements_for_conditions_dict c9dict c9coin =
      PyResult.ok [⟨[3, 1, 2, 3], Node.atom [5]⟩] ∧
    puzzle_announcements_for_conditions_dict c9dict c9coin =
      PyResult.ok [⟨[2], Node.atom [6]⟩] ∧
    coin_announcement_names_for_conditions_dict c9dict c9coin =
      PyResult.ok [std_hash ([3, 1, 2, 3] ++ [5])] ∧
    puzzle_announcement_names_for_conditions_dict c9dict c9coin =
      PyResult.ok [std_hash ([2] ++ [6])] := by
  have h := announcements_spec c9dict c9coin
    (by
      intro cvp hc
      simp [c9dict, dictGetD, dictGet] at hc
      subst hc
      exact ⟨[5], [], rfl⟩)
    (by
      intro cvp hc
      simp [c9dict, dictGetD, dictGet] at hc
      subst hc
      exact ⟨[6], [], rfl⟩)
  exact ⟨h.1.trans (by rfl), h.2.1.trans (by rfl), h.2.2.1.trans (by rfl),
    h.2.2.2.trans (by rfl)⟩

end Chia
